import Mathlib

/-!
Verification of the hammerbeam-slideshow sequencer.

The embedded code is the slideshow scheduler of
`src/boards/shields/nice_view_custom/widgets/peripheral_status.c` and of the
reworked k_work variant: the globals `order` (a `uint8_t` array of
`ART_FRAME_COUNT` frame indices) and `order_pos` (the cursor), the
Fisher-Yates routine `shuffle_order`, the periodic callbacks
(`rotate_art_cb`, `slideshow_cb`, `slideshow_work_cb`) and the widget
initialisation `zmk_widget_status_init`.

The mutable globals become an explicit state `SeqState`.  The hardware
random source `sys_rand32_get` becomes an explicit stream `rnd : Nat → Nat`
of draw values, threaded through every routine that consumes draws; each
loop iteration of the shuffle consumes exactly one draw, as in the source.
Calls into LVGL and the Zephyr work queue are recorded as an `Act` trace.
Array reads are `Option`-valued (`List.get?`); the source's unchecked
`order[order_pos]` read corresponds to the `some` branch, and an
out-of-bounds read makes the whole step return `none`.
-/

/-- Constant `ART_FRAME_COUNT`: the size of the deployed frame catalog
(`ARRAY_SIZE(anim_imgs)`, thirty `hammerbeam*` images). -/
def ART_FRAME_COUNT : Nat := 30

/-- Constant `ART_ROTATE_INTERVAL` of the reworked variant: 600000 ms. -/
def ART_ROTATE_INTERVAL : Nat := 600000

/-- The sequencer state: the globals `order` and `order_pos`.
The catalog size is a parameter `N` of every operation
(`N = ART_FRAME_COUNT` in the deployed firmware). -/
structure SeqState where
  order : List Nat
  pos : Nat
deriving DecidableEq

/-- Observable collaborator calls made by the slideshow routines. -/
inductive Act where
  /-- a call to `shuffle_order` -/
  | reshuffle : Act
  /-- the call `lv_obj_clean(art_box)` -/
  | clean : Act
  /-- the call `lv_img_create(art_box)` -/
  | create : Act
  /-- the call `lv_img_set_src(img, anim_imgs[frame])` -/
  | setSrc (frame : Nat) : Act
  /-- the call `lv_obj_align(img, LV_ALIGN_TOP_LEFT, 0, 0)` -/
  | align : Act
  /-- the call `k_work_schedule(&slideshow_work, K_MSEC(ms))` -/
  | schedule (ms : Nat) : Act
  /-- the call `lv_timer_create(cb, ms, NULL)` -/
  | timerCreate (ms : Nat) : Act
deriving DecidableEq

/-- Drop the first `k` values of a random stream (they have been consumed). -/
def shift (rnd : Nat → Nat) (k : Nat) : Nat → Nat := fun n => rnd (n + k)

/-- The body of the C swap: `tmp = order[i]; order[i] = order[j]; order[j] = tmp`.
Out-of-bounds reads take the `getD` default; all uses are in bounds. -/
def listSwap (l : List Nat) (i j : Nat) : List Nat :=
  (l.set i (l.getD j 0)).set j (l.getD i 0)

/-- The shuffle loop `for (int i = N-1; i > 0; --i)`: the first argument
is the loop variable `i`; each iteration draws `j = rnd 0 % (i + 1)` from
the stream and swaps `order[i]` with `order[j]`, then recurses on `i - 1`
with the rest of the stream. -/
def fisherYates (rnd : Nat → Nat) : Nat → List Nat → List Nat
  | 0, l => l
  | i + 1, l => fisherYates (fun n => rnd (n + 1)) i (listSwap l (i + 1) (rnd 0 % (i + 1 + 1)))

/-- Function `shuffle_order`: identity fill `order[i] = i`, then the Fisher-Yates
loop from `i = N - 1` down to `1`, then `order_pos = 0`. -/
def shuffle_order (N : Nat) (rnd : Nat → Nat) : SeqState :=
  { order := fisherYates rnd (N - 1) (List.range N), pos := 0 }

/-- Function `slideshow_work_cb` (reworked k_work variant): reshuffle if the cursor
has reached the catalog size, then clean the art box, create the image,
set its source to `anim_imgs[order[order_pos++]]`, align it, and re-arm
the work item.  Returns the displayed frame index, the trace of
collaborator calls, the new state and the remaining random stream. -/
def slideshow_work_cb (N : Nat) (rnd : Nat → Nat) (s : SeqState) :
    Option (Nat × List Act × SeqState × (Nat → Nat)) :=
  let s1 := if N ≤ s.pos then shuffle_order N rnd else s
  let rnd1 := if N ≤ s.pos then shift rnd (N - 1) else rnd
  let pre : List Act := if N ≤ s.pos then [Act.reshuffle] else []
  match s1.order[s1.pos]? with
  | some v =>
      some (v, pre ++ [Act.clean, Act.create, Act.setSrc v, Act.align,
        Act.schedule ART_ROTATE_INTERVAL],
        { order := s1.order, pos := s1.pos + 1 }, rnd1)
  | none => none

/-- Function `rotate_art_cb` (first LVGL-timer variant): identical sequencer logic,
no self re-arming (the LVGL timer is periodic). -/
def rotate_art_cb (N : Nat) (rnd : Nat → Nat) (s : SeqState) :
    Option (Nat × List Act × SeqState × (Nat → Nat)) :=
  let s1 := if N ≤ s.pos then shuffle_order N rnd else s
  let rnd1 := if N ≤ s.pos then shift rnd (N - 1) else rnd
  let pre : List Act := if N ≤ s.pos then [Act.reshuffle] else []
  match s1.order[s1.pos]? with
  | some v =>
      some (v, pre ++ [Act.clean, Act.create, Act.setSrc v, Act.align],
        { order := s1.order, pos := s1.pos + 1 }, rnd1)
  | none => none

/-- Function `slideshow_cb` (second LVGL-timer variant): same body as
`rotate_art_cb`. -/
def slideshow_cb (N : Nat) (rnd : Nat → Nat) (s : SeqState) :
    Option (Nat × List Act × SeqState × (Nat → Nat)) :=
  let s1 := if N ≤ s.pos then shuffle_order N rnd else s
  let rnd1 := if N ≤ s.pos then shift rnd (N - 1) else rnd
  let pre : List Act := if N ≤ s.pos then [Act.reshuffle] else []
  match s1.order[s1.pos]? with
  | some v =>
      some (v, pre ++ [Act.clean, Act.create, Act.setSrc v, Act.align],
        { order := s1.order, pos := s1.pos + 1 }, rnd1)
  | none => none

/-- Forget the collaborator trace of a step, keeping the frame index, the
state transition and the stream: the sequencer-visible content. -/
def stepView (r : Option (Nat × List Act × SeqState × (Nat → Nat))) :
    Option (Nat × SeqState × (Nat → Nat)) :=
  r.map fun x => (x.1, x.2.2)

/-- Iterate `slideshow_work_cb` a given number of times, collecting the
returned frame indices and the concatenated traces. -/
def run (N : Nat) : (Nat → Nat) → SeqState → Nat →
    Option (List Nat × List Act × SeqState × (Nat → Nat))
  | rnd, s, 0 => some ([], [], s, rnd)
  | rnd, s, k + 1 =>
    match slideshow_work_cb N rnd s with
    | some (v, tr, s1, rnd1) =>
      match run N rnd1 s1 k with
      | some (vs, trs, s2, rnd2) => some (v :: vs, tr ++ trs, s2, rnd2)
      | none => none
    | none => none

/-- Number of `shuffle_order` calls recorded in a trace. -/
def reshuffleCount : List Act → Nat
  | [] => 0
  | Act.reshuffle :: tr => reshuffleCount tr + 1
  | _ :: tr => reshuffleCount tr

/-- Number of displayed frames (`lv_img_set_src` calls) in a trace. -/
def displayCount : List Act → Nat
  | [] => 0
  | Act.setSrc _ :: tr => displayCount tr + 1
  | _ :: tr => displayCount tr

/-- Function `zmk_widget_status_init` of the reworked variant: initial
`shuffle_order()`, one synchronous `slideshow_work_cb(NULL)`, then
`k_work_schedule(&slideshow_work, K_MSEC(ART_ROTATE_INTERVAL))`. -/
def zmk_widget_status_init (N : Nat) (rnd : Nat → Nat) :
    Option (List Act × SeqState × (Nat → Nat)) :=
  let s0 := shuffle_order N rnd
  let rnd0 := shift rnd (N - 1)
  match slideshow_work_cb N rnd0 s0 with
  | some (_, tr, s1, rnd1) =>
      some (Act.reshuffle :: tr ++ [Act.schedule ART_ROTATE_INTERVAL], s1, rnd1)
  | none => none

/-- Function `zmk_widget_status_init` of the LVGL-timer variant: initial
`shuffle_order()`, one synchronous `rotate_art_cb(NULL)`, then
`lv_timer_create(rotate_art_cb, ART_ROTATE_INTERVAL, NULL)` with the
config-driven interval `speed`. -/
def zmk_widget_status_init_v1 (N speed : Nat) (rnd : Nat → Nat) :
    Option (List Act × SeqState × (Nat → Nat)) :=
  let s0 := shuffle_order N rnd
  let rnd0 := shift rnd (N - 1)
  match rotate_art_cb N rnd0 s0 with
  | some (_, tr, s1, rnd1) =>
      some (Act.reshuffle :: tr ++ [Act.timerCreate speed], s1, rnd1)
  | none => none

/- ### Permutation facts about the shuffle -/

theorem perm_cons_set (xs : List Nat) : ∀ (m a b : Nat), xs[m]? = some b →
    (b :: xs.set m a).Perm (a :: xs) := by
  induction xs with
  | nil => intro m a b h; simp at h
  | cons y t ih =>
    intro m a b h
    cases m with
    | zero =>
      simp at h
      subst h
      simpa using List.Perm.swap a y t
    | succ m =>
      simp only [List.getElem?_cons_succ] at h
      simp only [List.set]
      exact (List.Perm.swap y b _).trans
        ((List.Perm.cons y (ih m a b h)).trans (List.Perm.swap a y t))

theorem listSwap_perm : ∀ (l : List Nat) (i j : Nat), i < l.length → j < l.length →
    (listSwap l i j).Perm l := by
  intro l
  induction l with
  | nil => intro i j hi _; simp at hi
  | cons x t ih =>
    intro i j hi hj
    cases i with
    | zero =>
      cases j with
      | zero => simp [listSwap]
      | succ m =>
        have hm : m < t.length := by simpa using hj
        obtain ⟨b, hb⟩ : ∃ b, t[m]? = some b :=
          ⟨t[m], List.getElem?_eq_getElem hm⟩
        have hgd : (x :: t).getD (m + 1) 0 = b := by
          simp [List.getD_eq_getD_get?, hb]
        simp only [listSwap, hgd, List.getD_eq_getD_get?, List.get?, Option.getD_some,
          List.set]
        exact perm_cons_set t m x b hb
    | succ m =>
      cases j with
      | zero =>
        have hm : m < t.length := by simpa using hi
        obtain ⟨a, ha⟩ : ∃ a, t[m]? = some a :=
          ⟨t[m], List.getElem?_eq_getElem hm⟩
        have hgd : (x :: t).getD (m + 1) 0 = a := by
          simp [List.getD_eq_getD_get?, ha]
        simp only [listSwap, hgd, List.getD_eq_getD_get?, List.get?, Option.getD_some,
          List.set]
        exact perm_cons_set t m x a ha
      | succ k =>
        have hm : m < t.length := by simpa using hi
        have hk : k < t.length := by simpa using hj
        have hred : listSwap (x :: t) (m + 1) (k + 1) = x :: listSwap t m k := by
          simp [listSwap, List.getD_eq_getD_get?, List.get?, List.set]
        rw [hred]
        exact List.Perm.cons x (ih m k hm hk)

theorem listSwap_length (l : List Nat) (i j : Nat) :
    (listSwap l i j).length = l.length := by
  simp [listSwap]

theorem fisherYates_perm : ∀ (i : Nat) (rnd : Nat → Nat) (l : List Nat),
    i < l.length → (fisherYates rnd i l).Perm l := by
  intro i
  induction i with
  | zero => intro rnd l _; exact List.Perm.refl l
  | succ i ih =>
    intro rnd l hi
    have hj : rnd 0 % (i + 1 + 1) < l.length :=
      lt_of_lt_of_le (Nat.mod_lt _ (Nat.succ_pos _)) hi
    have hswap := listSwap_perm l (i + 1) (rnd 0 % (i + 1 + 1)) hi hj
    have hlen : i < (listSwap l (i + 1) (rnd 0 % (i + 1 + 1))).length := by
      rw [listSwap_length]; omega
    exact (ih _ _ hlen).trans hswap

theorem shuffle_order_pos (N : Nat) (rnd : Nat → Nat) :
    (shuffle_order N rnd).pos = 0 := rfl

theorem shuffle_order_perm (N : Nat) (rnd : Nat → Nat) :
    (shuffle_order N rnd).order.Perm (List.range N) := by
  cases N with
  | zero => exact List.Perm.refl _
  | succ n =>
    apply fisherYates_perm
    simp

theorem shuffle_order_length (N : Nat) (rnd : Nat → Nat) :
    (shuffle_order N rnd).order.length = N := by
  rw [(shuffle_order_perm N rnd).length_eq, List.length_range]

theorem shuffle_order_nodup (N : Nat) (rnd : Nat → Nat) :
    (shuffle_order N rnd).order.Nodup :=
  (shuffle_order_perm N rnd).nodup_iff.mpr (List.nodup_range N)

/-- Claim C2: for every catalog size `N ≥ 1` and every random stream,
after `shuffle_order` runs the array `order` is a permutation of
`{0, …, N-1}` (set equality and no duplicates) and the cursor
`order_pos` is `0`. -/
theorem shuffle_order_is_permutation (N : Nat) (rnd : Nat → Nat) (hN : 1 ≤ N) :
    (shuffle_order N rnd).order.Perm (List.range N) ∧
    (shuffle_order N rnd).order.Nodup ∧
    (shuffle_order N rnd).pos = 0 :=
  ⟨shuffle_order_perm N rnd, shuffle_order_nodup N rnd, rfl⟩

theorem shuffle_order_is_permutation_witness :
    1 ≤ 30 ∧
    ((shuffle_order 30 (fun _ => 0)).order.Perm (List.range 30) ∧
     (shuffle_order 30 (fun _ => 0)).order.Nodup ∧
     (shuffle_order 30 (fun _ => 0)).pos = 0) :=
  ⟨by decide, shuffle_order_is_permutation 30 (fun _ => 0) (by decide)⟩

/- ### Characterisation of one callback invocation -/

theorem reshuffleCount_append (l1 l2 : List Act) :
    reshuffleCount (l1 ++ l2) = reshuffleCount l1 + reshuffleCount l2 := by
  induction l1 with
  | nil => simp [reshuffleCount]
  | cons a t ih => cases a <;> simp [reshuffleCount, ih] <;> omega

theorem cb_lt (N : Nat) (rnd : Nat → Nat) (s : SeqState) (v : Nat)
    (h : s.pos < N) (hv : s.order[s.pos]? = some v) :
    slideshow_work_cb N rnd s = some (v, [Act.clean, Act.create, Act.setSrc v,
      Act.align, Act.schedule ART_ROTATE_INTERVAL], ⟨s.order, s.pos + 1⟩, rnd) := by
  have hnot : ¬ N ≤ s.pos := Nat.not_le.mpr h
  simp [slideshow_work_cb, hnot, hv]

theorem cb_ge (N : Nat) (rnd : Nat → Nat) (s : SeqState) (v : Nat)
    (h : N ≤ s.pos) (hv : (shuffle_order N rnd).order[0]? = some v) :
    slideshow_work_cb N rnd s = some (v, [Act.reshuffle, Act.clean, Act.create,
      Act.setSrc v, Act.align, Act.schedule ART_ROTATE_INTERVAL],
      ⟨(shuffle_order N rnd).order, 1⟩, shift rnd (N - 1)) := by
  have h0 : (shuffle_order N rnd).pos = 0 := rfl
  simp [slideshow_work_cb, h, h0, hv]

theorem art_cb_lt (N : Nat) (rnd : Nat → Nat) (s : SeqState) (v : Nat)
    (h : s.pos < N) (hv : s.order[s.pos]? = some v) :
    rotate_art_cb N rnd s = some (v, [Act.clean, Act.create, Act.setSrc v,
      Act.align], ⟨s.order, s.pos + 1⟩, rnd) := by
  have hnot : ¬ N ≤ s.pos := Nat.not_le.mpr h
  simp [rotate_art_cb, hnot, hv]

/- ### Running several invocations -/

theorem run_chunk (N : Nat) : ∀ (k : Nat) (rnd : Nat → Nat) (s : SeqState),
    s.order.length = N → s.pos + k ≤ N →
    ∃ tr, run N rnd s k = some ((s.order.drop s.pos).take k, tr,
      ⟨s.order, s.pos + k⟩, rnd) ∧ reshuffleCount tr = 0 := by
  intro k
  induction k with
  | zero =>
    intro rnd s _ _
    exact ⟨[], by simp [run], rfl⟩
  | succ k ih =>
    intro rnd s hlen hk
    have hp : s.pos < N := by omega
    have hplen : s.pos < s.order.length := by omega
    have hv : s.order[s.pos]? = some s.order[s.pos] := List.getElem?_eq_getElem hplen
    have hcb := cb_lt N rnd s _ hp hv
    obtain ⟨tr, hrun, htr⟩ := ih rnd ⟨s.order, s.pos + 1⟩ hlen
      (by show s.pos + 1 + k ≤ N; omega)
    have he : s.pos + 1 + k = s.pos + (k + 1) := by omega
    rw [he] at hrun
    refine ⟨[Act.clean, Act.create, Act.setSrc s.order[s.pos], Act.align,
      Act.schedule ART_ROTATE_INTERVAL] ++ tr, ?_, ?_⟩
    · simp only [run, hcb, hrun]
      rw [← List.getElem_cons_drop s.order s.pos hplen, List.take_succ_cons]
    · rw [reshuffleCount_append, htr]
      rfl

theorem run_inv (N : Nat) (hN : 1 ≤ N) : ∀ (k : Nat) (rnd : Nat → Nat) (s : SeqState),
    s.order.Perm (List.range N) → s.pos ≤ N →
    ∃ outs tr s2 rnd2,
      run N rnd s k = some (outs, tr, s2, rnd2) ∧
      outs.length = k ∧
      s2.order.Perm (List.range N) ∧
      s2.pos ≤ N ∧
      s2.pos ≤ s.pos + k ∧
      (s.order.take s.pos ++ outs).drop (s.pos + k - s2.pos) = s2.order.take s2.pos := by
  intro k
  induction k with
  | zero =>
    intro rnd s hperm hpos
    refine ⟨[], [], s, rnd, by simp [run], rfl, hperm, hpos, by omega, ?_⟩
    simp
  | succ k ih =>
    intro rnd s hperm hpos
    have hlen : s.order.length = N := by rw [hperm.length_eq, List.length_range]
    by_cases hp : s.pos < N
    · have hplen : s.pos < s.order.length := by omega
      have hv : s.order[s.pos]? = some s.order[s.pos] := List.getElem?_eq_getElem hplen
      have hcb := cb_lt N rnd s _ hp hv
      obtain ⟨outs, tr, s2, rnd2, hrun, hlen2, hperm2, hpos2, hle2, hsuf⟩ :=
        ih rnd ⟨s.order, s.pos + 1⟩ hperm (by show s.pos + 1 ≤ N; omega)
      have hle2a : s2.pos ≤ s.pos + 1 + k := hle2
      refine ⟨s.order[s.pos] :: outs, [Act.clean, Act.create, Act.setSrc s.order[s.pos],
        Act.align, Act.schedule ART_ROTATE_INTERVAL] ++ tr, s2, rnd2, ?_,
        by simp [hlen2], hperm2, hpos2, by omega, ?_⟩
      · simp only [run, hcb, hrun]
      · have h1 : s.order.take (s.pos + 1) = s.order.take s.pos ++ [s.order[s.pos]] := by
          rw [List.take_succ, hv]
          rfl
        have h2 : s.order.take s.pos ++ s.order[s.pos] :: outs
            = s.order.take (s.pos + 1) ++ outs := by
          rw [h1, List.append_assoc]
          rfl
        rw [h2]
        have h3 : s.pos + (k + 1) - s2.pos = s.pos + 1 + k - s2.pos := by omega
        rw [h3]
        exact hsuf
    · have hpN : s.pos = N := by omega
      have hlen0 : (shuffle_order N rnd).order.length = N := shuffle_order_length N rnd
      have h0 : 0 < (shuffle_order N rnd).order.length := by omega
      have hv : (shuffle_order N rnd).order[0]? = some (shuffle_order N rnd).order[0] :=
        List.getElem?_eq_getElem h0
      have hcb := cb_ge N rnd s _ (by omega) hv
      obtain ⟨outs, tr, s2, rnd2, hrun, hlen2, hperm2, hpos2, hle2, hsuf⟩ :=
        ih (shift rnd (N - 1)) ⟨(shuffle_order N rnd).order, 1⟩
          (shuffle_order_perm N rnd) (by show 1 ≤ N; omega)
      have hle2a : s2.pos ≤ 1 + k := hle2
      refine ⟨(shuffle_order N rnd).order[0] :: outs, [Act.reshuffle, Act.clean,
        Act.create, Act.setSrc (shuffle_order N rnd).order[0], Act.align,
        Act.schedule ART_ROTATE_INTERVAL] ++ tr, s2, rnd2, ?_,
        by simp [hlen2], hperm2, hpos2, by omega, ?_⟩
      · simp only [run, hcb, hrun]
      · have htk : (shuffle_order N rnd).order.take 1
            = [(shuffle_order N rnd).order[0]] := by
          rw [List.take_succ, hv]
          rfl
        rw [htk] at hsuf
        have htake : s.order.take s.pos = s.order := by
          have h4 : s.pos = s.order.length := by omega
          rw [h4, List.take_length]
        rw [htake, List.drop_append_eq_append_drop,
          List.drop_eq_nil_of_le (by omega : s.order.length ≤ s.pos + (k + 1) - s2.pos),
          List.nil_append]
        have h5 : s.pos + (k + 1) - s2.pos - s.order.length = 1 + k - s2.pos := by omega
        rw [h5]
        exact hsuf

/- ### Claim C1 -/

/-- Claim C1: for every catalog size `N ≥ 2`, starting immediately after any
reshuffle, the frame indices returned by `N` consecutive invocations of the
slideshow callback are exactly the shuffled order, a permutation of
`{0, …, N-1}` with no index repeated within the cycle. -/
theorem cycle_outputs_exact_permutation (N : Nat) (rnd rnd0 : Nat → Nat) (hN : 2 ≤ N) :
    ∃ tr s2,
      run N rnd (shuffle_order N rnd0) N
        = some ((shuffle_order N rnd0).order, tr, s2, rnd) ∧
      (shuffle_order N rnd0).order.Perm (List.range N) ∧
      (shuffle_order N rnd0).order.Nodup := by
  obtain ⟨tr, hrun, _⟩ := run_chunk N N rnd (shuffle_order N rnd0)
    (shuffle_order_length N rnd0)
    (by show (shuffle_order N rnd0).pos + N ≤ N; rw [shuffle_order_pos]; omega)
  refine ⟨tr, ⟨(shuffle_order N rnd0).order, (shuffle_order N rnd0).pos + N⟩, ?_,
    shuffle_order_perm N rnd0, shuffle_order_nodup N rnd0⟩
  rw [hrun]
  have houts : ((shuffle_order N rnd0).order.drop (shuffle_order N rnd0).pos).take N
      = (shuffle_order N rnd0).order := by
    generalize hl : (shuffle_order N rnd0).order = l
    have hlen : l.length = N := by rw [← hl]; exact shuffle_order_length N rnd0
    rw [shuffle_order_pos, List.drop_zero, ← hlen, List.take_length]
  rw [houts]

theorem cycle_outputs_exact_permutation_witness :
    2 ≤ 30 ∧
    ∃ tr s2,
      run 30 (fun _ => 7) (shuffle_order 30 (fun _ => 0)) 30
        = some ((shuffle_order 30 (fun _ => 0)).order, tr, s2, fun _ => 7) ∧
      (shuffle_order 30 (fun _ => 0)).order.Perm (List.range 30) ∧
      (shuffle_order 30 (fun _ => 0)).order.Nodup :=
  ⟨by decide, cycle_outputs_exact_permutation 30 (fun _ => 7) (fun _ => 0) (by decide)⟩

/- ### Claim C4 -/

/-- Claim C4: for every `N ≥ 1`, starting immediately after a reshuffle, the
first `N` callback invocations perform no reshuffle and return the stored
order; the `(N+1)`-th invocation finds the cursor at `N`, reshuffles exactly
once, returns element `0` of the new order, and leaves the cursor at `1`. -/
theorem reshuffle_exactly_at_call_N_plus_one (N : Nat) (rnd rnd0 : Nat → Nat)
    (hN : 1 ≤ N) :
    ∃ tr s1 v tr2 s2 rnd2,
      run N rnd (shuffle_order N rnd0) N
        = some ((shuffle_order N rnd0).order, tr, s1, rnd) ∧
      reshuffleCount tr = 0 ∧
      s1.pos = N ∧
      slideshow_work_cb N rnd s1 = some (v, tr2, s2, rnd2) ∧
      reshuffleCount tr2 = 1 ∧
      s2.pos = 1 ∧
      (shuffle_order N rnd).order[0]? = some v := by
  obtain ⟨tr, hrun, htr⟩ := run_chunk N N rnd (shuffle_order N rnd0)
    (shuffle_order_length N rnd0)
    (by show (shuffle_order N rnd0).pos + N ≤ N; rw [shuffle_order_pos]; omega)
  have houts : ((shuffle_order N rnd0).order.drop (shuffle_order N rnd0).pos).take N
      = (shuffle_order N rnd0).order := by
    generalize hl : (shuffle_order N rnd0).order = l
    have hlen : l.length = N := by rw [← hl]; exact shuffle_order_length N rnd0
    rw [shuffle_order_pos, List.drop_zero, ← hlen, List.take_length]
  rw [houts] at hrun
  have h0 : 0 < (shuffle_order N rnd).order.length := by
    rw [shuffle_order_length]; omega
  have hv : (shuffle_order N rnd).order[0]? = some (shuffle_order N rnd).order[0] :=
    List.getElem?_eq_getElem h0
  have hcb := cb_ge N rnd ⟨(shuffle_order N rnd0).order, (shuffle_order N rnd0).pos + N⟩
    ((shuffle_order N rnd).order[0]) (by show N ≤ (shuffle_order N rnd0).pos + N; omega) hv
  refine ⟨tr, _, _, _, _, _, hrun, htr, ?_, hcb, rfl, rfl, hv⟩
  show (shuffle_order N rnd0).pos + N = N
  rw [shuffle_order_pos]
  omega

theorem reshuffle_exactly_at_call_N_plus_one_witness :
    1 ≤ 30 ∧
    ∃ tr s1 v tr2 s2 rnd2,
      run 30 (fun _ => 7) (shuffle_order 30 (fun _ => 0)) 30
        = some ((shuffle_order 30 (fun _ => 0)).order, tr, s1, fun _ => 7) ∧
      reshuffleCount tr = 0 ∧
      s1.pos = 30 ∧
      slideshow_work_cb 30 (fun _ => 7) s1 = some (v, tr2, s2, rnd2) ∧
      reshuffleCount tr2 = 1 ∧
      s2.pos = 1 ∧
      (shuffle_order 30 (fun _ => 7)).order[0]? = some v :=
  ⟨by decide, reshuffle_exactly_at_call_N_plus_one 30 (fun _ => 7) (fun _ => 0) (by decide)⟩

/- ### Claim C5 -/

/-- Claim C5: every reachable state of the sequencer (any number `k` of
callback invocations after the initial shuffle) has its cursor in `[0, N]`,
its order a duplicate-free permutation of `{0, …, N-1}`, and the first
`order_pos` elements of the order are exactly the indices shown since the
last reshuffle (the last `order_pos` outputs); when the cursor has reached
`N`, the next invocation reshuffles first (its trace starts with the
reshuffle) and consumes element `0` of the fresh order, leaving the cursor
at `1`. -/
theorem reachable_state_invariant (N : Nat) (rnd rnd0 : Nat → Nat) (k : Nat)
    (hN : 1 ≤ N) :
    ∃ outs tr s2 rnd2,
      run N rnd (shuffle_order N rnd0) k = some (outs, tr, s2, rnd2) ∧
      s2.pos ≤ N ∧
      s2.order.Perm (List.range N) ∧
      s2.order.Nodup ∧
      outs.length = k ∧
      outs.drop (k - s2.pos) = s2.order.take s2.pos ∧
      (s2.pos = N → ∃ v tr3 s3 rnd3,
        slideshow_work_cb N rnd2 s2 = some (v, tr3, s3, rnd3) ∧
        tr3.head? = some Act.reshuffle ∧
        s3.pos = 1 ∧
        (shuffle_order N rnd2).order[0]? = some v) := by
  obtain ⟨outs, tr, s2, rnd2, hrun, hl, hperm2, hpos2, _, hsuf⟩ :=
    run_inv N hN k rnd (shuffle_order N rnd0) (shuffle_order_perm N rnd0)
      (by rw [shuffle_order_pos]; omega)
  have hsuf2 : outs.drop (k - s2.pos) = s2.order.take s2.pos := by
    have h1 : (shuffle_order N rnd0).order.take (shuffle_order N rnd0).pos = [] := by
      rw [shuffle_order_pos, List.take_zero]
    rw [h1, List.nil_append] at hsuf
    have h2 : (shuffle_order N rnd0).pos + k = k := by rw [shuffle_order_pos]; omega
    rw [h2] at hsuf
    exact hsuf
  refine ⟨outs, tr, s2, rnd2, hrun, hpos2, hperm2,
    hperm2.nodup_iff.mpr (List.nodup_range N), hl, hsuf2, ?_⟩
  intro hpN
  have h0 : 0 < (shuffle_order N rnd2).order.length := by
    rw [shuffle_order_length]; omega
  have hv : (shuffle_order N rnd2).order[0]? = some (shuffle_order N rnd2).order[0] :=
    List.getElem?_eq_getElem h0
  exact ⟨_, _, _, _, cb_ge N rnd2 s2 _ (by omega) hv, rfl, rfl, hv⟩

theorem reachable_state_invariant_witness :
    1 ≤ 30 ∧
    ∃ outs tr s2 rnd2,
      run 30 (fun _ => 7) (shuffle_order 30 (fun _ => 0)) 31 = some (outs, tr, s2, rnd2) ∧
      s2.pos ≤ 30 ∧
      s2.order.Perm (List.range 30) ∧
      s2.order.Nodup ∧
      outs.length = 31 ∧
      outs.drop (31 - s2.pos) = s2.order.take s2.pos ∧
      (s2.pos = 30 → ∃ v tr3 s3 rnd3,
        slideshow_work_cb 30 rnd2 s2 = some (v, tr3, s3, rnd3) ∧
        tr3.head? = some Act.reshuffle ∧
        s3.pos = 1 ∧
        (shuffle_order 30 rnd2).order[0]? = some v) :=
  ⟨by decide, reachable_state_invariant 30 (fun _ => 7) (fun _ => 0) 31 (by decide)⟩

/- ### Claim C6 -/

/-- Claim C6: every invocation of the periodic callback performs, in order:
obtain the next frame index (reshuffling first exactly when the cursor has
reached `N`), clean the art container, create and display the frame image,
align it, and finally re-arm the work item with the rotation interval; the
re-arm is the last recorded action of every invocation. -/
theorem tick_collaborator_order (N : Nat) (rnd : Nat → Nat) (s : SeqState)
    (hN : 1 ≤ N) (hperm : s.order.Perm (List.range N)) (hpos : s.pos ≤ N) :
    ∃ v s2 rnd2 tr,
      slideshow_work_cb N rnd s = some (v, tr, s2, rnd2) ∧
      tr = (if N ≤ s.pos then [Act.reshuffle] else [])
        ++ [Act.clean, Act.create, Act.setSrc v, Act.align,
          Act.schedule ART_ROTATE_INTERVAL] ∧
      tr.getLast? = some (Act.schedule ART_ROTATE_INTERVAL) := by
  have hlen : s.order.length = N := by rw [hperm.length_eq, List.length_range]
  by_cases hp : s.pos < N
  · have hplen : s.pos < s.order.length := by omega
    have hv : s.order[s.pos]? = some s.order[s.pos] := List.getElem?_eq_getElem hplen
    refine ⟨s.order[s.pos], _, _, _, cb_lt N rnd s _ hp hv, ?_, rfl⟩
    rw [if_neg (Nat.not_le.mpr hp)]
    rfl
  · have h0 : 0 < (shuffle_order N rnd).order.length := by
      rw [shuffle_order_length]; omega
    have hv : (shuffle_order N rnd).order[0]? = some (shuffle_order N rnd).order[0] :=
      List.getElem?_eq_getElem h0
    refine ⟨(shuffle_order N rnd).order[0], _, _, _,
      cb_ge N rnd s _ (by omega) hv, ?_, rfl⟩
    rw [if_pos (by omega : N ≤ s.pos)]
    rfl

theorem tick_collaborator_order_witness :
    (1 ≤ 30 ∧ (List.range 30).Perm (List.range 30) ∧ 0 ≤ 30) ∧
    ∃ v s2 rnd2 tr,
      slideshow_work_cb 30 (fun _ => 7) ⟨List.range 30, 0⟩ = some (v, tr, s2, rnd2) ∧
      tr = (if 30 ≤ (⟨List.range 30, 0⟩ : SeqState).pos then [Act.reshuffle] else [])
        ++ [Act.clean, Act.create, Act.setSrc v, Act.align,
          Act.schedule ART_ROTATE_INTERVAL] ∧
      tr.getLast? = some (Act.schedule ART_ROTATE_INTERVAL) :=
  ⟨⟨by decide, List.Perm.refl _, by decide⟩,
    tick_collaborator_order 30 (fun _ => 7) ⟨List.range 30, 0⟩ (by decide)
      (List.Perm.refl _) (by decide)⟩

/- ### Claim C9 -/

/-- Claim C9: for every `N ≥ 1` and every state satisfying the reachable
invariant, the callback's array accesses are in bounds: after the
reshuffle-on-exhaustion branch the cursor is strictly below `N` when
`order[order_pos]` is read, the `Option`-valued read returns `some`, and the
value read is below `N`, so it indexes `anim_imgs` (length `N`) in bounds. -/
theorem cb_array_accesses_in_bounds (N : Nat) (rnd : Nat → Nat) (s : SeqState)
    (hN : 1 ≤ N) (hperm : s.order.Perm (List.range N)) (hpos : s.pos ≤ N) :
    ∃ v,
      (if N ≤ s.pos then shuffle_order N rnd else s).pos < N ∧
      (if N ≤ s.pos then shuffle_order N rnd else s).order[
        (if N ≤ s.pos then shuffle_order N rnd else s).pos]? = some v ∧
      v < N ∧
      ∃ tr s2 rnd2, slideshow_work_cb N rnd s = some (v, tr, s2, rnd2) := by
  have hlen : s.order.length = N := by rw [hperm.length_eq, List.length_range]
  by_cases hp : s.pos < N
  · rw [if_neg (Nat.not_le.mpr hp)]
    have hplen : s.pos < s.order.length := by omega
    have hv : s.order[s.pos]? = some s.order[s.pos] := List.getElem?_eq_getElem hplen
    refine ⟨s.order[s.pos], hp, hv, ?_, _, _, _, cb_lt N rnd s _ hp hv⟩
    exact List.mem_range.mp (hperm.mem_iff.mp (List.getElem_mem hplen))
  · rw [if_pos (by omega : N ≤ s.pos)]
    have h0 : 0 < (shuffle_order N rnd).order.length := by
      rw [shuffle_order_length]; omega
    have hv : (shuffle_order N rnd).order[0]? = some (shuffle_order N rnd).order[0] :=
      List.getElem?_eq_getElem h0
    refine ⟨(shuffle_order N rnd).order[0], ?_, hv, ?_, _, _, _,
      cb_ge N rnd s _ (by omega) hv⟩
    · show (shuffle_order N rnd).pos < N
      rw [shuffle_order_pos]
      omega
    · exact List.mem_range.mp ((shuffle_order_perm N rnd).mem_iff.mp
        (List.getElem_mem h0))

theorem cb_array_accesses_in_bounds_witness :
    (1 ≤ 30 ∧ (List.range 30).Perm (List.range 30) ∧ 30 ≤ 30) ∧
    ∃ v,
      (if 30 ≤ (⟨List.range 30, 30⟩ : SeqState).pos then shuffle_order 30 (fun _ => 7)
        else ⟨List.range 30, 30⟩).pos < 30 ∧
      (if 30 ≤ (⟨List.range 30, 30⟩ : SeqState).pos then shuffle_order 30 (fun _ => 7)
        else ⟨List.range 30, 30⟩).order[
          (if 30 ≤ (⟨List.range 30, 30⟩ : SeqState).pos then shuffle_order 30 (fun _ => 7)
            else ⟨List.range 30, 30⟩).pos]? = some v ∧
      v < 30 ∧
      ∃ tr s2 rnd2,
        slideshow_work_cb 30 (fun _ => 7) ⟨List.range 30, 30⟩ = some (v, tr, s2, rnd2) :=
  ⟨⟨by decide, List.Perm.refl _, by decide⟩,
    cb_array_accesses_in_bounds 30 (fun _ => 7) ⟨List.range 30, 30⟩ (by decide)
      (List.Perm.refl _) (by decide)⟩

/- ### Claim C10 -/

/-- Claim C10: the two LVGL-timer variants of the callback and the reworked
k_work variant are the same function on the sequencer state: the two timer
variants are literally equal, and all three select the same frame index,
produce the same `(order, order_pos)` transition and consume the random
stream identically (the work variant differs only in the recorded
re-arming call). -/
theorem timer_and_work_variants_agree (N : Nat) (rnd : Nat → Nat) (s : SeqState) :
    rotate_art_cb N rnd s = slideshow_cb N rnd s ∧
    stepView (rotate_art_cb N rnd s) = stepView (slideshow_work_cb N rnd s) := by
  refine ⟨rfl, ?_⟩
  simp only [rotate_art_cb, slideshow_work_cb, stepView]
  cases h : (if N ≤ s.pos then shuffle_order N rnd else s).order[
      (if N ≤ s.pos then shuffle_order N rnd else s).pos]? with
  | none => rfl
  | some v => rfl

/- ### Claim C8 -/

theorem run_single_frame_aux : ∀ (k : Nat) (rnd : Nat → Nat),
    ∃ tr rnd2, run 1 rnd ⟨[0], 1⟩ k = some (List.replicate k 0, tr, ⟨[0], 1⟩, rnd2) ∧
      reshuffleCount tr = k := by
  intro k
  induction k with
  | zero => intro rnd; exact ⟨[], rnd, by simp [run], rfl⟩
  | succ k ih =>
    intro rnd
    have hv : (shuffle_order 1 rnd).order[0]? = some 0 := rfl
    have hcb := cb_ge 1 rnd ⟨[0], 1⟩ 0 (by show (1:Nat) ≤ 1; omega) hv
    have hord : (shuffle_order 1 rnd).order = [0] := rfl
    rw [hord] at hcb
    obtain ⟨tr, rnd2, hrun, htr⟩ := ih (shift rnd 0)
    refine ⟨[Act.reshuffle, Act.clean, Act.create, Act.setSrc 0, Act.align,
      Act.schedule ART_ROTATE_INTERVAL] ++ tr, rnd2, ?_, ?_⟩
    · simp only [run, hcb, hrun, List.replicate_succ]
    · rw [reshuffleCount_append, htr]
      show 1 + k = k + 1
      omega

/-- Claim C8: with a single-frame catalog (`N = 1`), `shuffle_order` performs
no swap and never reads the random stream (its result is the same for every
stream), leaving `order = [0]` and the cursor at `0`; every callback
invocation returns frame `0`, each invocation after the first performs
exactly one terminating reshuffle, and the iteration is total (never loops). -/
theorem single_frame_catalog_behaviour (rnd rnd0 : Nat → Nat) (k : Nat) :
    shuffle_order 1 rnd0 = ⟨[0], 0⟩ ∧
    ∃ tr s2 rnd2,
      run 1 rnd (shuffle_order 1 rnd0) k = some (List.replicate k 0, tr, s2, rnd2) ∧
      s2.order = [0] ∧
      reshuffleCount tr = k - 1 := by
  refine ⟨rfl, ?_⟩
  cases k with
  | zero => exact ⟨[], shuffle_order 1 rnd0, rnd, by simp [run], rfl, rfl⟩
  | succ k =>
    have heq : shuffle_order 1 rnd0 = (⟨[0], 0⟩ : SeqState) := rfl
    rw [heq]
    have hv : ((⟨[0], 0⟩ : SeqState)).order[((⟨[0], 0⟩ : SeqState)).pos]? = some 0 := rfl
    have hcb := cb_lt 1 rnd (⟨[0], 0⟩ : SeqState) 0 (by show (0:Nat) < 1; omega) hv
    obtain ⟨tr, rnd2, hrun, htr⟩ := run_single_frame_aux k rnd
    refine ⟨[Act.clean, Act.create, Act.setSrc 0, Act.align,
      Act.schedule ART_ROTATE_INTERVAL] ++ tr, ⟨[0], 1⟩, rnd2, ?_, rfl, ?_⟩
    · simp only [run, hcb, hrun, List.replicate_succ]
    · rw [reshuffleCount_append, htr]
      show 0 + k = k + 1 - 1
      omega

/- ### Claim C7 -/

/-- Claim C7: the widget initialisation of both variants performs exactly one
reshuffle (the initial one; the synchronous first callback does not
reshuffle), displays exactly one frame before any interval elapses, and its
last action arms the periodic schedule with the rotation interval, so the
second renderer call can only come from a later scheduled invocation. -/
theorem init_single_display_then_arm (N speed : Nat) (rnd : Nat → Nat) (hN : 1 ≤ N) :
    ∃ v s1 rnd1 v2 s2 rnd2,
      zmk_widget_status_init N rnd = some ([Act.reshuffle, Act.clean, Act.create,
        Act.setSrc v, Act.align, Act.schedule ART_ROTATE_INTERVAL,
        Act.schedule ART_ROTATE_INTERVAL], s1, rnd1) ∧
      reshuffleCount [Act.reshuffle, Act.clean, Act.create, Act.setSrc v, Act.align,
        Act.schedule ART_ROTATE_INTERVAL, Act.schedule ART_ROTATE_INTERVAL] = 1 ∧
      displayCount [Act.reshuffle, Act.clean, Act.create, Act.setSrc v, Act.align,
        Act.schedule ART_ROTATE_INTERVAL, Act.schedule ART_ROTATE_INTERVAL] = 1 ∧
      ([Act.reshuffle, Act.clean, Act.create, Act.setSrc v, Act.align,
        Act.schedule ART_ROTATE_INTERVAL,
        Act.schedule ART_ROTATE_INTERVAL] : List Act).getLast?
        = some (Act.schedule ART_ROTATE_INTERVAL) ∧
      zmk_widget_status_init_v1 N speed rnd = some ([Act.reshuffle, Act.clean,
        Act.create, Act.setSrc v2, Act.align, Act.timerCreate speed], s2, rnd2) ∧
      reshuffleCount [Act.reshuffle, Act.clean, Act.create, Act.setSrc v2, Act.align,
        Act.timerCreate speed] = 1 ∧
      displayCount [Act.reshuffle, Act.clean, Act.create, Act.setSrc v2, Act.align,
        Act.timerCreate speed] = 1 ∧
      ([Act.reshuffle, Act.clean, Act.create, Act.setSrc v2, Act.align,
        Act.timerCreate speed] : List Act).getLast? = some (Act.timerCreate speed) := by
  have hp : (shuffle_order N rnd).pos < N := by rw [shuffle_order_pos]; omega
  have hplen : (shuffle_order N rnd).pos < (shuffle_order N rnd).order.length := by
    rw [shuffle_order_pos, shuffle_order_length]; omega
  have hv : (shuffle_order N rnd).order[(shuffle_order N rnd).pos]?
      = some ((shuffle_order N rnd).order[(shuffle_order N rnd).pos]) :=
    List.getElem?_eq_getElem hplen
  have hcb := cb_lt N (shift rnd (N - 1)) (shuffle_order N rnd) _ hp hv
  have hcb2 := art_cb_lt N (shift rnd (N - 1)) (shuffle_order N rnd) _ hp hv
  refine ⟨(shuffle_order N rnd).order[(shuffle_order N rnd).pos],
    ⟨(shuffle_order N rnd).order, (shuffle_order N rnd).pos + 1⟩, shift rnd (N - 1),
    (shuffle_order N rnd).order[(shuffle_order N rnd).pos],
    ⟨(shuffle_order N rnd).order, (shuffle_order N rnd).pos + 1⟩, shift rnd (N - 1),
    ?_, rfl, rfl, rfl, ?_, rfl, rfl, rfl⟩
  · simp only [zmk_widget_status_init, hcb]
    rfl
  · simp only [zmk_widget_status_init_v1, hcb2]
    rfl

theorem init_single_display_then_arm_witness :
    1 ≤ 30 ∧
    ∃ v s1 rnd1 v2 s2 rnd2,
      zmk_widget_status_init 30 (fun _ => 7) = some ([Act.reshuffle, Act.clean,
        Act.create, Act.setSrc v, Act.align, Act.schedule ART_ROTATE_INTERVAL,
        Act.schedule ART_ROTATE_INTERVAL], s1, rnd1) ∧
      reshuffleCount [Act.reshuffle, Act.clean, Act.create, Act.setSrc v, Act.align,
        Act.schedule ART_ROTATE_INTERVAL, Act.schedule ART_ROTATE_INTERVAL] = 1 ∧
      displayCount [Act.reshuffle, Act.clean, Act.create, Act.setSrc v, Act.align,
        Act.schedule ART_ROTATE_INTERVAL, Act.schedule ART_ROTATE_INTERVAL] = 1 ∧
      ([Act.reshuffle, Act.clean, Act.create, Act.setSrc v, Act.align,
        Act.schedule ART_ROTATE_INTERVAL,
        Act.schedule ART_ROTATE_INTERVAL] : List Act).getLast?
        = some (Act.schedule ART_ROTATE_INTERVAL) ∧
      zmk_widget_status_init_v1 30 10000 (fun _ => 7) = some ([Act.reshuffle,
        Act.clean, Act.create, Act.setSrc v2, Act.align, Act.timerCreate 10000],
        s2, rnd2) ∧
      reshuffleCount [Act.reshuffle, Act.clean, Act.create, Act.setSrc v2, Act.align,
        Act.timerCreate 10000] = 1 ∧
      displayCount [Act.reshuffle, Act.clean, Act.create, Act.setSrc v2, Act.align,
        Act.timerCreate 10000] = 1 ∧
      ([Act.reshuffle, Act.clean, Act.create, Act.setSrc v2, Act.align,
        Act.timerCreate 10000] : List Act).getLast? = some (Act.timerCreate 10000) :=
  ⟨by decide, init_single_display_then_arm 30 10000 (fun _ => 7) (by decide)⟩

/- ### Claim C3: distribution of the shuffle over 32-bit random streams -/

/-- The source `sys_rand32_get` returns a 32-bit value: the draw space has `2^32`
elements. -/
def U32 : Nat := 2 ^ 32

/-- A finite list of draws as a random stream (later draws never consumed). -/
def drawsToStream (ds : List Nat) : Nat → Nat := fun n => ds.getD n 0

/-- Number of single-draw 32-bit streams whose shuffle of a two-frame
catalog produces the given order. -/
def streamCount2 (σ : List Nat) : Nat :=
  ((Finset.range U32).filter
    (fun r => (shuffle_order 2 (drawsToStream [r])).order = σ)).card

/-- Number of two-draw 32-bit streams whose shuffle of a three-frame
catalog produces the given order. -/
def streamCount3 (σ : List Nat) : Nat :=
  (((Finset.range U32) ×ˢ (Finset.range U32)).filter
    (fun p => (shuffle_order 3 (drawsToStream [p.1, p.2])).order = σ)).card

theorem card_mod_filter (m : Nat) (hm : 0 < m) : ∀ (M a : Nat), a < m →
    ((Finset.range M).filter (fun r => r % m = a)).card
      = M / m + if a < M % m then 1 else 0 := by
  intro M
  induction M with
  | zero =>
    intro a _
    simp
  | succ M ih =>
    intro a ha
    have hmod : (M + 1) % m = if M % m + 1 = m then 0 else M % m + 1 := by
      rcases Nat.lt_or_ge 1 m with h1 | h1
      · have h2 : (M + 1) % m = (M % m + 1) % m := by
          rw [Nat.add_mod M 1 m, Nat.mod_eq_of_lt h1]
        by_cases h3 : M % m + 1 = m
        · rw [h2, h3, Nat.mod_self]
          simp
        · have h4 : M % m + 1 < m := by
            have := Nat.mod_lt M hm
            omega
          rw [h2, Nat.mod_eq_of_lt h4, if_neg h3]
      · have hm1 : m = 1 := by omega
        subst hm1
        split_ifs <;> omega
    have hdd : (m ∣ M + 1) ↔ (M % m + 1 = m) := by
      rw [Nat.dvd_iff_mod_eq_zero, hmod]
      split_ifs with h3
      · exact ⟨fun _ => h3, fun _ => rfl⟩
      · exact iff_of_false (fun h4 => h4) h3
    have hstep : (M + 1) / m = M / m + if M % m + 1 = m then 1 else 0 := by
      rw [Nat.succ_div M m, if_congr hdd rfl rfl]
    rw [Finset.range_succ, Finset.filter_insert]
    have hmlt : M % m < m := Nat.mod_lt M hm
    by_cases hd : M % m + 1 = m
    · rw [if_pos hd] at hmod hstep
      by_cases hMa : M % m = a
      · rw [if_pos hMa, Finset.card_insert_of_not_mem (by simp), ih a ha, hstep, hmod]
        split_ifs <;> omega
      · rw [if_neg hMa, ih a ha, hstep, hmod]
        split_ifs <;> omega
    · rw [if_neg hd] at hmod hstep
      by_cases hMa : M % m = a
      · rw [if_pos hMa, Finset.card_insert_of_not_mem (by simp), ih a ha, hstep, hmod]
        split_ifs <;> omega
      · rw [if_neg hMa, ih a ha, hstep, hmod]
        split_ifs <;> omega

theorem shuffle2_eq (r : Nat) :
    (shuffle_order 2 (drawsToStream [r])).order = listSwap [0, 1] 1 (r % 2) := rfl

theorem shuffle3_eq (r1 r2 : Nat) :
    (shuffle_order 3 (drawsToStream [r1, r2])).order
      = listSwap (listSwap [0, 1, 2] 2 (r1 % 3)) 1 (r2 % 2) := rfl

theorem swap_chain3_iff (σ : List Nat) (a b : Nat) (ha : a < 3) (hb : b < 2)
    (hσ : listSwap (listSwap [0, 1, 2] 2 a) 1 b = σ)
    (huniq : ∀ u v : Nat, u < 3 → v < 2 →
      listSwap (listSwap [0, 1, 2] 2 u) 1 v = σ → u = a ∧ v = b) :
    ∀ r1 r2 : Nat, (shuffle_order 3 (drawsToStream [r1, r2])).order = σ
      ↔ (r1 % 3 = a ∧ r2 % 2 = b) := by
  intro r1 r2
  rw [shuffle3_eq]
  constructor
  · intro h
    exact huniq (r1 % 3) (r2 % 2) (Nat.mod_lt _ (by omega)) (Nat.mod_lt _ (by omega)) h
  · rintro ⟨h1, h2⟩
    rw [h1, h2, hσ]

theorem streamCount3_eq_prod (σ : List Nat) (a b : Nat)
    (hiff : ∀ r1 r2 : Nat, (shuffle_order 3 (drawsToStream [r1, r2])).order = σ
      ↔ (r1 % 3 = a ∧ r2 % 2 = b)) :
    streamCount3 σ = ((Finset.range U32).filter (fun r => r % 3 = a)).card
      * ((Finset.range U32).filter (fun r => r % 2 = b)).card := by
  unfold streamCount3
  have h1 : ((Finset.range U32 ×ˢ Finset.range U32).filter
        (fun p => (shuffle_order 3 (drawsToStream [p.1, p.2])).order = σ))
      = ((Finset.range U32 ×ˢ Finset.range U32).filter
        (fun p => p.1 % 3 = a ∧ p.2 % 2 = b)) := by
    apply Finset.filter_congr
    intro p _
    simp only [hiff p.1 p.2]
  have h2 : ((Finset.range U32 ×ˢ Finset.range U32).filter
        (fun p => p.1 % 3 = a ∧ p.2 % 2 = b))
      = ((Finset.range U32).filter (fun r => r % 3 = a))
        ×ˢ ((Finset.range U32).filter (fun r => r % 2 = b)) := by
    ext p
    simp only [Finset.mem_filter, Finset.mem_product]
    exact ⟨fun h => ⟨⟨h.1.1, h.2.1⟩, h.1.2, h.2.2⟩,
      fun h => ⟨⟨h.1.1, h.2.1⟩, h.1.2, h.2.2⟩⟩
  rw [h1, h2, Finset.card_product]

theorem count_mod3_0 :
    ((Finset.range U32).filter (fun r => r % 3 = 0)).card = 1431655766 := by
  rw [card_mod_filter 3 (by omega) U32 0 (by omega)]
  decide

theorem count_mod3_1 :
    ((Finset.range U32).filter (fun r => r % 3 = 1)).card = 1431655765 := by
  rw [card_mod_filter 3 (by omega) U32 1 (by omega)]
  decide

theorem count_mod2_0 :
    ((Finset.range U32).filter (fun r => r % 2 = 0)).card = 2147483648 := by
  rw [card_mod_filter 2 (by omega) U32 0 (by omega)]
  decide

theorem count_mod2_1 :
    ((Finset.range U32).filter (fun r => r % 2 = 1)).card = 2147483648 := by
  rw [card_mod_filter 2 (by omega) U32 1 (by omega)]
  decide

theorem streamCount3_120 : streamCount3 [1, 2, 0] = 1431655766 * 2147483648 := by
  rw [streamCount3_eq_prod [1, 2, 0] 0 0 (swap_chain3_iff [1, 2, 0] 0 0
    (by omega) (by omega) (by decide) ?_), count_mod3_0, count_mod2_0]
  intro u v hu hv h
  interval_cases u <;> interval_cases v <;> revert h <;> decide

theorem streamCount3_201 : streamCount3 [2, 0, 1] = 1431655765 * 2147483648 := by
  rw [streamCount3_eq_prod [2, 0, 1] 1 0 (swap_chain3_iff [2, 0, 1] 1 0
    (by omega) (by omega) (by decide) ?_), count_mod3_1, count_mod2_0]
  intro u v hu hv h
  interval_cases u <;> interval_cases v <;> revert h <;> decide

theorem streamCount2_eq_count (σ : List Nat) (b : Nat)
    (hiff : ∀ r : Nat, (shuffle_order 2 (drawsToStream [r])).order = σ ↔ r % 2 = b) :
    streamCount2 σ = ((Finset.range U32).filter (fun r => r % 2 = b)).card := by
  have h1 : ((Finset.range U32).filter
        (fun r => (shuffle_order 2 (drawsToStream [r])).order = σ))
      = ((Finset.range U32).filter (fun r => r % 2 = b)) := by
    apply Finset.filter_congr
    intro r _
    simp only [hiff r]
  unfold streamCount2
  rw [h1]

theorem streamCount2_01 : streamCount2 [0, 1] = 2147483648 := by
  rw [streamCount2_eq_count [0, 1] 1 ?_, count_mod2_1]
  intro r
  rw [shuffle2_eq]
  obtain ⟨v, hv, hrv⟩ : ∃ v, v < 2 ∧ r % 2 = v := ⟨r % 2, Nat.mod_lt _ (by omega), rfl⟩
  rw [hrv]
  interval_cases v <;> decide

theorem streamCount2_10 : streamCount2 [1, 0] = 2147483648 := by
  rw [streamCount2_eq_count [1, 0] 0 ?_, count_mod2_0]
  intro r
  rw [shuffle2_eq]
  obtain ⟨v, hv, hrv⟩ : ∃ v, v < 2 ∧ r % 2 = v := ⟨r % 2, Nat.mod_lt _ (by omega), rfl⟩
  rw [hrv]
  interval_cases v <;> decide

/-- Claim C3 fails as stated: with every draw of `sys_rand32_get` modelled
as an arbitrary 32-bit value, the Fisher-Yates loop computes
`j = rand % (i + 1)`, and for a three-frame catalog the permutations
`[1, 2, 0]` and `[2, 0, 1]` (both permutations of `{0, 1, 2}`) have
different numbers of two-draw stream preimages, so the `N!` orderings are
not equally likely. -/
theorem shuffle_not_uniform_counterexample :
    ([1, 2, 0] : List Nat).Perm (List.range 3) ∧
    ([2, 0, 1] : List Nat).Perm (List.range 3) ∧
    streamCount3 [1, 2, 0] ≠ streamCount3 [2, 0, 1] := by
  refine ⟨by decide, by decide, ?_⟩
  rw [streamCount3_120, streamCount3_201]
  decide

/-- Claim C3 (amended): each reshuffle draws `j = rand mod (i+1)` from the
32-bit source, so a residue `j` of the draw at loop index `i` has
`2^32 / (i+1)` stream preimages, plus one when `j < 2^32 mod (i+1)`; the
permutation distribution is exactly uniform only when every modulus
divides `2^32`: for `N = 2` both orderings have exactly `2^31` preimages,
but already for `N = 3` (and hence for the deployed `N = 30`, whose loop
includes the biased modulus `3`) the permutation `[1, 2, 0]` has
`1431655766 · 2^31` two-draw preimages while `[2, 0, 1]` has
`1431655765 · 2^31`, so the orderings are close to, but not exactly,
equally likely. -/
theorem shuffle_bias_exact_counts :
    streamCount2 [0, 1] = 2147483648 ∧
    streamCount2 [1, 0] = 2147483648 ∧
    streamCount3 [1, 2, 0] = 1431655766 * 2147483648 ∧
    streamCount3 [2, 0, 1] = 1431655765 * 2147483648 :=
  ⟨streamCount2_01, streamCount2_10, streamCount3_120, streamCount3_201⟩
